import Mathlib

/-!
Verification of the Financial-AI web application (a personal/SME finance
tracker).  The definitions below are a shallow embedding of the TypeScript
source: transaction records and the pure computations the components perform
on them (balance summary, category breakdown, monthly budget statement,
login/signup handling, receipt-scanner transaction construction, the
local-storage save effect, and the AI-service call wrappers).  Monetary
amounts (JS numbers holding decimal currency values) are modelled as
rationals; JS records keyed by strings are modelled as association lists in
insertion order; the browser local storage is modelled as a partial map from
string keys to values.
-/

namespace FinancialAI

/-- `TransactionType` enum from types.ts. -/
inductive TransactionType where
  | INCOME
  | EXPENSE
deriving DecidableEq, Repr

/-- `Transaction` interface from types.ts.  The optional `description`
field is modelled with `Option`. -/
structure Transaction where
  id : String
  date : String
  merchant : String
  amount : Rat
  category : String
  type : TransactionType
  description : Option String := none
deriving DecidableEq, Repr

/-! ## App.tsx : balance, add/delete, and the save-to-storage effect -/

/-- `currentBalance` useMemo from App.tsx: income sum minus expense sum,
each computed with `filter` and `reduce((a, b) => a + b.amount, 0)`. -/
def currentBalance (txs : List Transaction) : Rat :=
  (txs.filter (fun t => t.type = TransactionType.INCOME)).foldl
      (fun a b => a + b.amount) 0
  - (txs.filter (fun t => t.type = TransactionType.EXPENSE)).foldl
      (fun a b => a + b.amount) 0

/-- The local-storage key `elag_transactions_<userId>` used by App.tsx. -/
def txKey (userId : String) : String := "elag_transactions_" ++ userId

/-- The part of the App component state relevant to transaction
persistence: the logged-in user's id, the in-memory transaction list, and
the browser local storage (keys mapped to stored transaction lists; the
JSON round-trip is the identity and is not modelled). -/
structure AppState where
  userId : String
  transactions : List Transaction
  storage : String → Option (List Transaction)

/-- The save useEffect from App.tsx: whenever the transaction state
changes, the list is written under `elag_transactions_<userId>` — but only
when `transactions.length > 0`. -/
def saveEffect (s : AppState) : AppState :=
  if s.transactions.length > 0 then
    { s with storage := fun k =>
        if k = txKey s.userId then some s.transactions else s.storage k }
  else s

/-- `addTransaction` from App.tsx (`setTransactions(prev => [...prev, t])`)
followed by the save effect that reacts to the state change. -/
def addTransaction (s : AppState) (t : Transaction) : AppState :=
  saveEffect { s with transactions := s.transactions ++ [t] }

/-- `deleteTransaction` from App.tsx
(`setTransactions(prev => prev.filter(t => t.id !== id))`) followed by the
save effect that reacts to the state change. -/
def deleteTransaction (s : AppState) (id : String) : AppState :=
  saveEffect { s with transactions := s.transactions.filter (fun t => t.id ≠ id) }

/-- A concrete logged-in state holding a single transaction, with the
stored copy in sync with the in-memory list. -/
def singleTxState : AppState :=
  { userId := "u1"
    transactions :=
      [{ id := "1", date := "2023-10-01", merchant := "TechCorp Salary",
         amount := 4500, category := "Income",
         type := TransactionType.INCOME }]
    storage := fun k =>
      if k = txKey "u1" then
        some [{ id := "1", date := "2023-10-01", merchant := "TechCorp Salary",
                amount := 4500, category := "Income",
                type := TransactionType.INCOME }]
      else none }

/-- A small concrete transaction list used to instantiate theorems: one
income and two expenses in distinct categories. -/
def demoTxs : List Transaction :=
  [{ id := "1", date := "2023-10-01", merchant := "TechCorp Salary",
     amount := 100, category := "Salary", type := TransactionType.INCOME },
   { id := "2", date := "2023-10-02", merchant := "Starbucks",
     amount := 30, category := "Food", type := TransactionType.EXPENSE },
   { id := "3", date := "2023-11-03", merchant := "Metro",
     amount := 20, category := "Transport", type := TransactionType.EXPENSE }]

/-! ## Auth.tsx : login and signup submission -/

/-- A record of the `elag_users` list in local storage (signup stores the
plain password alongside the profile). -/
structure StoredUser where
  id : String
  name : String
  email : String
  password : String
deriving DecidableEq, Repr

/-- The session object written to `elag_session` and passed to `onLogin`:
the matched user's id, name and email. -/
structure SessionUser where
  id : String
  name : String
  email : String
deriving DecidableEq, Repr

/-- Outcome of an Auth form submission: the (possibly updated) stored user
list, the session written to local storage (`none` when nothing is
written), and the error message set (`none` when no error). -/
structure AuthOutcome where
  users : List StoredUser
  session : Option SessionUser
  error : Option String
deriving DecidableEq, Repr

/-- The login branch of `Auth.handleSubmit`: find a stored user whose
email and password both equal the entered values; on success write the
session and call `onLogin`, otherwise set the error message. -/
def loginSubmit (users : List StoredUser) (email password : String) :
    AuthOutcome :=
  match users.find? (fun u => u.email = email ∧ u.password = password) with
  | some u =>
      { users := users
        session := some { id := u.id, name := u.name, email := u.email }
        error := none }
  | none =>
      { users := users, session := none,
        error := some "Invalid email or password." }

/-- The signup branch of `Auth.handleSubmit`: reject empty fields, reject
an already-registered email, otherwise append the new user (with the id
produced by `crypto.randomUUID()`, passed here as `newId`) and write a
session for them. -/
def signupSubmit (users : List StoredUser)
    (newId name email password : String) : AuthOutcome :=
  if name = "" ∨ email = "" ∨ password = "" then
    { users := users, session := none,
      error := some "Please fill in all fields." }
  else if (users.find? (fun u => u.email = email)).isSome then
    { users := users, session := none,
      error := some "Email already exists. Please login." }
  else
    { users := users ++
        [{ id := newId, name := name, email := email, password := password }]
      session := some { id := newId, name := name, email := email }
      error := none }

/-! ## services/geminiService.ts : the AI operation wrappers

Each exported operation issues a single `generateContent` (or
`chat.sendMessage`) request and decodes the JSON reply.  The embedding
makes the single request explicit: every operation is a function of the
one request outcome, `Except.ok` carrying the decoded schema-constrained
payload and `Except.error` standing for any failure of the request or of
the JSON decoding (the code handles both in the same `catch`).  What each
wrapper adds around the call is exactly what the functions below compute. -/

/-- `Partial<Transaction>` as produced by `parseReceiptImage`: every
extracted field may be absent. -/
structure ParsedReceipt where
  merchant : Option String
  date : Option String
  amount : Option Rat
  category : Option String
  description : Option String
deriving DecidableEq, Repr

/-- `FinancialHealthMetric` from types.ts. -/
structure FinancialHealthMetric where
  score : Rat
  status : String
  cashFlowStatus : String
  projectedSavings : Rat
  risks : List String
  recommendations : List String
deriving DecidableEq, Repr

/-- `Insight` record returned by `generateSmartInsights`. -/
structure Insight where
  type : String
  title : String
  description : String
  impactAmount : Option Rat
deriving DecidableEq, Repr

/-- `Anomaly` record returned by `detectAnomalies`. -/
structure Anomaly where
  transactionId : String
  reason : String
  severity : String
deriving DecidableEq, Repr

/-- `CashFlowPoint` record returned by `predictCashFlow`. -/
structure CashFlowPoint where
  date : String
  balance : Rat
  type : String
deriving DecidableEq, Repr

/-- The fixed fallback object `analyzeFinancialHealth` returns from its
`catch` block. -/
def healthFallback : FinancialHealthMetric :=
  { score := 50
    status := "Warning"
    cashFlowStatus := "Unable to analyze at this moment."
    projectedSavings := 0
    risks := ["Data unavailable"]
    recommendations := ["Try again later"] }

/-- `parseReceiptImage`: on success the decoded payload is returned; the
`catch` block logs and RE-THROWS, so a failed request propagates as an
error to the caller (the Scanner component). -/
def parseReceiptImage (resp : Except Unit ParsedReceipt) :
    Except Unit ParsedReceipt :=
  match resp with
  | Except.ok d => Except.ok d
  | Except.error e => Except.error e

/-- `analyzeFinancialHealth`: the decoded metric on success, the fixed
fallback object on any failure. -/
def analyzeFinancialHealth (resp : Except Unit FinancialHealthMetric) :
    FinancialHealthMetric :=
  match resp with
  | Except.ok m => m
  | Except.error _ => healthFallback

/-- The fixed fallback string `getCoachResponse` returns from its `catch`
block. -/
def coachFallback : String :=
  "I\x27m having trouble connecting to my financial database right now. Please try again in a moment."

/-- `getCoachResponse`: the reply text on success (`result.text`, which
may be absent), the fixed apology string on any failure. -/
def getCoachResponse (resp : Except Unit (Option String)) : Option String :=
  match resp with
  | Except.ok t => t
  | Except.error _ => some coachFallback

/-- `generateBudgetPlan`: the decoded category-to-limit record on success
(the `parsed.budget || parsed` unwrapping is part of the decoding), the
fixed one-entry record on any failure. -/
def generateBudgetPlan (resp : Except Unit (List (String × Rat))) :
    List (String × Rat) :=
  match resp with
  | Except.ok b => b
  | Except.error _ => [("General", 1000)]

/-- `generateSmartInsights`: the decoded list on success, the empty list
on any failure. -/
def generateSmartInsights (resp : Except Unit (List Insight)) :
    List Insight :=
  match resp with
  | Except.ok l => l
  | Except.error _ => []

/-- `detectAnomalies`: the decoded list on success, the empty list on any
failure. -/
def detectAnomalies (resp : Except Unit (List Anomaly)) : List Anomaly :=
  match resp with
  | Except.ok l => l
  | Except.error _ => []

/-- `predictCashFlow`: the decoded list on success, the empty list on any
failure. -/
def predictCashFlow (resp : Except Unit (List CashFlowPoint)) :
    List CashFlowPoint :=
  match resp with
  | Except.ok l => l
  | Except.error _ => []

/-! ## Scanner.tsx : building a transaction from a parsed receipt -/

/-- JS `a || b` on a possibly-absent string: the default replaces both an
absent value and an empty (falsy) one. -/
def jsOrStr (v : Option String) (d : String) : String :=
  match v with
  | some s => if s = "" then d else s
  | none => d

/-- JS `a || b` on a possibly-absent number: the default replaces both an
absent value and a zero (falsy) one. -/
def jsOrRat (v : Option Rat) (d : Rat) : Rat :=
  match v with
  | some x => if x = 0 then d else x
  | none => d

/-- Outcome of `Scanner.handleFileUpload`: the transactions handed to
`onAddTransaction` and the error message set (if any). -/
structure ScanOutcome where
  added : List Transaction
  error : Option String
deriving DecidableEq, Repr

/-- `Scanner.handleFileUpload` after the file is read: on a successful
parse, build one transaction (`crypto.randomUUID()` passed as `newId`,
today's date as `today`) with `||`-defaults and type EXPENSE and hand it
to `onAddTransaction`; on failure set the error message and add nothing. -/
def handleFileUpload (parseResult : Except Unit ParsedReceipt)
    (newId today : String) : ScanOutcome :=
  match parseResult with
  | Except.ok d =>
      { added :=
          [{ id := newId
             date := jsOrStr d.date today
             merchant := jsOrStr d.merchant "Unknown Merchant"
             amount := jsOrRat d.amount 0
             category := jsOrStr d.category "Uncategorized"
             type := TransactionType.EXPENSE
             description := d.description }]
        error := none }
  | Except.error _ =>
      { added := []
        error := some "Failed to analyze receipt. Please try again or enter manually." }

/-! ## JS string-keyed records as association lists

`Record<string, number>` objects built by `obj[k] = (obj[k] || 0) + x`
are modelled as association lists in insertion order: assignment
overwrites in place when the key exists and appends otherwise, lookup
returns the first (unique) binding and `|| 0` turns an absent value into
zero. -/

/-- `obj[k] || 0`: the bound value, or 0 when the key is absent. -/
def recLookupD (m : List (String × Rat)) (k : String) : Rat :=
  match m.find? (fun p => p.1 = k) with
  | some p => p.2
  | none => 0

/-- `obj[k] = v`: overwrite the existing binding in place, or append a new
one. -/
def recSet (m : List (String × Rat)) (k : String) (v : Rat) :
    List (String × Rat) :=
  if m.any (fun p => p.1 = k) then
    m.map (fun p => if p.1 = k then (k, v) else p)
  else m ++ [(k, v)]

/-- The `forEach` accumulation
`obj[t.category] = (obj[t.category] || 0) + t.amount` used by
Dashboard.tsx and BudgetStatement.tsx. -/
def accumulateByCategory (txs : List Transaction) : List (String × Rat) :=
  txs.foldl (fun m t => recSet m t.category (recLookupD m t.category + t.amount)) []

/-- `categoryData` useMemo from Dashboard.tsx: the spending breakdown,
one (name, value) entry per expense category (the display color attached
to each entry is presentational and omitted). -/
def categoryData (txs : List Transaction) : List (String × Rat) :=
  accumulateByCategory (txs.filter (fun t => t.type = TransactionType.EXPENSE))

/-! ## BudgetStatement.tsx : the monthly budget statement -/

/-- JS `s.startsWith(pre)`, modelled on the character lists. -/
def strStartsWith (s pre : String) : Bool :=
  pre.data.isPrefixOf s.data

/-- The `monthlyTransactions` filter of the stats useMemo: expenses whose
`YYYY-MM-DD` date string starts with the selected `YYYY-MM` prefix. -/
def monthlyExpenses (txs : List Transaction) (pfx : String) :
    List Transaction :=
  txs.filter (fun t =>
    decide (t.type = TransactionType.EXPENSE) && strStartsWith t.date pfx)

/-- `spendingByCategory`: the `forEach` accumulation over the selected
month's expenses. -/
def spendingByCategory (txs : List Transaction) (pfx : String) :
    List (String × Rat) :=
  accumulateByCategory (monthlyExpenses txs pfx)

/-- `Array.from(new Set(list))`: first occurrence of each element, in
order. -/
def setDedup (l : List String) : List String :=
  l.foldl (fun acc x => if x ∈ acc then acc else acc ++ [x]) []

/-- `allCategories`: the set of budget keys and spending keys, deduplicated
and sorted (JS `Array.prototype.sort` on strings). -/
def allCategories (budgets : List (String × Rat)) (txs : List Transaction)
    (pfx : String) : List String :=
  (setDedup (budgets.map Prod.fst
    ++ (spendingByCategory txs pfx).map Prod.fst)).mergeSort
    (fun a b => a ≤ b)

/-- One row of `categoryStats`. -/
structure CategoryStat where
  category : String
  spent : Rat
  budget : Rat
  remaining : Rat
  percentage : Rat
deriving DecidableEq, Repr

/-- The value of the stats useMemo of BudgetStatement.tsx. -/
structure BudgetStats where
  categoryStats : List CategoryStat
  totalBudget : Rat
  totalSpent : Rat
  totalRemaining : Rat
  totalPercentage : Rat
deriving DecidableEq, Repr

/-- The `categoryStats` rows of the stats useMemo: for each merged
category, `spent` is `spendingByCategory[cat] || 0`, `budget` is
`budgets[cat] || 0`, `remaining` their difference, and `percentage` the
guarded utilization. -/
def categoryStatsOf (txs : List Transaction) (budgets : List (String × Rat))
    (pfx : String) : List CategoryStat :=
  (allCategories budgets txs pfx).map (fun cat =>
    let spent := recLookupD (spendingByCategory txs pfx) cat
    let budget := recLookupD budgets cat
    { category := cat
      spent := spent
      budget := budget
      remaining := budget - spent
      percentage :=
        if budget > 0 then spent / budget * 100
        else if spent > 0 then 100 else 0 })

/-- The stats useMemo of BudgetStatement.tsx: the per-category rows and
the `reduce`-computed totals. -/
def computeStats (txs : List Transaction) (budgets : List (String × Rat))
    (pfx : String) : BudgetStats :=
  let categoryStats := categoryStatsOf txs budgets pfx
  let totalBudget := categoryStats.foldl (fun acc curr => acc + curr.budget) 0
  let totalSpent := categoryStats.foldl (fun acc curr => acc + curr.spent) 0
  { categoryStats := categoryStats
    totalBudget := totalBudget
    totalSpent := totalSpent
    totalRemaining := totalBudget - totalSpent
    totalPercentage :=
      if totalBudget > 0 then totalSpent / totalBudget * 100 else 0 }

/-- Concrete budgets record used to instantiate theorems. -/
def demoBudgets : List (String × Rat) := [("Food", 100)]

end FinancialAI

namespace FinancialAI

/-! ## Helper lemmas -/

/-- `reduce((acc, x) => acc + f(x), 0)` computes the sum of the images. -/
theorem foldl_add_eq_sum {α : Type} (f : α → Rat) (l : List α) (a : Rat) :
    l.foldl (fun acc x => acc + f x) a = a + (l.map f).sum := by
  induction l generalizing a with
  | nil => simp
  | cons x l ih =>
      simp only [List.foldl_cons, List.map_cons, List.sum_cons, ih]
      ring

/-- `reduce((a, b) => a + b.amount, 0)` computes the sum of the amounts. -/
theorem foldl_amount_eq_sum (l : List Transaction) (a : Rat) :
    l.foldl (fun a b => a + b.amount) a = a + (l.map (fun t => t.amount)).sum :=
  foldl_add_eq_sum (fun t => t.amount) l a

/-- Lookup after a cons: the head binding hides the tail. -/
theorem recLookupD_cons (p : String × Rat) (m : List (String × Rat))
    (c : String) :
    recLookupD (p :: m) c = if p.1 = c then p.2 else recLookupD m c := by
  unfold recLookupD
  rw [List.find?_cons]
  by_cases h : p.1 = c <;> simp [h]

/-- Lookup of an absent key yields the `|| 0` default. -/
theorem recLookupD_eq_zero_of_not_mem (m : List (String × Rat)) (c : String)
    (h : c ∉ m.map Prod.fst) : recLookupD m c = 0 := by
  induction m with
  | nil => rfl
  | cons p m ih =>
      rw [recLookupD_cons]
      simp only [List.map_cons, List.mem_cons, not_or] at h
      rw [if_neg (fun hc => h.1 hc.symm)]
      exact ih h.2

/-- With unique keys, lookup of a present binding returns its value. -/
theorem recLookupD_eq_of_mem (m : List (String × Rat))
    (hnd : (m.map Prod.fst).Nodup) (p : String × Rat) (hp : p ∈ m) :
    recLookupD m p.1 = p.2 := by
  induction m with
  | nil => cases hp
  | cons q m ih =>
      rw [recLookupD_cons]
      simp only [List.map_cons, List.nodup_cons] at hnd
      rcases List.mem_cons.mp hp with h | h
      · subst h; rw [if_pos rfl]
      · rw [if_neg]
        · exact ih hnd.2 h
        · intro hq
          exact hnd.1 (hq ▸ (List.mem_map.mpr ⟨p, h, rfl⟩))

/-- Overwriting bindings of key `k` in place does not change the value
read at any other key. -/
theorem recLookupD_map_overwrite (m : List (String × Rat)) (k c : String)
    (v : Rat) (hc : c ≠ k) :
    recLookupD (m.map (fun p => if p.1 = k then (k, v) else p)) c
      = recLookupD m c := by
  induction m with
  | nil => rfl
  | cons q m ih =>
      simp only [List.map_cons]
      rw [recLookupD_cons, recLookupD_cons]
      by_cases hq : q.1 = k
      · rw [if_pos hq]
        rw [if_neg (fun h => hc h.symm),
            if_neg (fun h : q.1 = c => hc (hq ▸ h).symm)]
        exact ih
      · rw [if_neg hq]
        by_cases hqc : q.1 = c
        · rw [if_pos hqc, if_pos hqc]
        · rw [if_neg hqc, if_neg hqc]
          exact ih

/-- When key `k` occurs in the record, overwriting it in place makes the
lookup at `k` read the new value. -/
theorem recLookupD_map_hit (m : List (String × Rat)) (k : String) (v : Rat)
    (hmem : ∃ p ∈ m, p.1 = k) :
    recLookupD (m.map (fun p => if p.1 = k then (k, v) else p)) k = v := by
  induction m with
  | nil =>
      rcases hmem with ⟨p, hp, -⟩
      cases hp
  | cons q m ih =>
      simp only [List.map_cons]
      rw [recLookupD_cons]
      by_cases hq : q.1 = k
      · rw [if_pos hq]
        rw [if_pos rfl]
      · rw [if_neg hq, if_neg hq]
        apply ih
        rcases hmem with ⟨p, hp, hpk⟩
        rcases List.mem_cons.mp hp with h | h
        · exact absurd (h ▸ hpk) hq
        · exact ⟨p, h, hpk⟩

/-- Lookup distributes over append: bindings of the first part shadow the
second. -/
theorem recLookupD_append (m l : List (String × Rat)) (c : String) :
    recLookupD (m ++ l) c =
      if c ∈ m.map Prod.fst then recLookupD m c else recLookupD l c := by
  induction m with
  | nil => simp [recLookupD_cons]
  | cons p m ih =>
      rw [List.cons_append, recLookupD_cons, recLookupD_cons]
      by_cases hp : p.1 = c
      · rw [if_pos hp, if_pos (by simp [hp])]
        rw [if_pos hp]
      · rw [if_neg hp, if_neg hp, ih]
        by_cases hc : c ∈ m.map Prod.fst
        · rw [if_pos hc, if_pos (by simp [hc])]
        · rw [if_neg hc, if_neg (by
            simp only [List.map_cons, List.mem_cons]
            rintro (h | h)
            · exact hp h.symm
            · exact hc h)]

/-- Assignment followed by lookup: the assigned key reads back the new
value, every other key is untouched. -/
theorem recLookupD_recSet (m : List (String × Rat)) (k c : String) (v : Rat) :
    recLookupD (recSet m k v) c = if c = k then v else recLookupD m c := by
  unfold recSet
  by_cases hany : m.any (fun p => p.1 = k) = true
  · rw [if_pos hany]
    by_cases hc : c = k
    · subst hc
      rw [if_pos rfl]
      apply recLookupD_map_hit
      simpa using hany
    · rw [if_neg hc]
      exact recLookupD_map_overwrite m k c v hc
  · rw [if_neg hany]
    have hk : k ∉ m.map Prod.fst := by
      intro hmem
      apply hany
      rcases List.mem_map.mp hmem with ⟨p, hp, hpk⟩
      simp only [List.any_eq_true]
      exact ⟨p, hp, by simp [hpk]⟩
    rw [recLookupD_append]
    by_cases hc : c = k
    · subst hc
      rw [if_neg hk, if_pos rfl, recLookupD_cons, if_pos rfl]
    · rw [if_neg hc]
      by_cases hcm : c ∈ m.map Prod.fst
      · rw [if_pos hcm]
      · rw [if_neg hcm, recLookupD_cons,
            if_neg (fun h : k = c => hc h.symm)]
        rw [recLookupD_eq_zero_of_not_mem m c hcm]
        rfl

/-- Keys after assignment: unchanged when the key is present, appended
when it is absent. -/
theorem keys_recSet (m : List (String × Rat)) (k : String) (v : Rat) :
    (recSet m k v).map Prod.fst =
      if m.any (fun p => p.1 = k) = true then m.map Prod.fst
      else m.map Prod.fst ++ [k] := by
  unfold recSet
  by_cases hany : m.any (fun p => p.1 = k) = true
  · rw [if_pos hany, if_pos hany, List.map_map]
    apply List.map_congr_left
    intro p _
    by_cases h : p.1 = k <;> simp [h]
  · rw [if_neg hany, if_neg hany]
    simp

/-- A key reads as present in `recSet m k v` exactly when it was present
before or is the assigned key. -/
theorem mem_keys_recSet (m : List (String × Rat)) (k : String) (v : Rat)
    (c : String) :
    c ∈ (recSet m k v).map Prod.fst ↔ c ∈ m.map Prod.fst ∨ c = k := by
  rw [keys_recSet]
  by_cases hany : m.any (fun p => p.1 = k) = true
  · rw [if_pos hany]
    constructor
    · exact Or.inl
    · rintro (h | h)
      · exact h
      · subst h
        rcases List.any_eq_true.mp hany with ⟨p, hp, hpk⟩
        exact List.mem_map.mpr ⟨p, hp, by simpa using hpk⟩
  · rw [if_neg hany]
    simp

/-- Assignment keeps the keys unique. -/
theorem nodup_keys_recSet (m : List (String × Rat)) (k : String) (v : Rat)
    (hnd : (m.map Prod.fst).Nodup) :
    ((recSet m k v).map Prod.fst).Nodup := by
  rw [keys_recSet]
  by_cases hany : m.any (fun p => p.1 = k) = true
  · rw [if_pos hany]; exact hnd
  · rw [if_neg hany]
    have hk : k ∉ m.map Prod.fst := by
      intro hmem
      apply hany
      rcases List.mem_map.mp hmem with ⟨p, hp, hpk⟩
      exact List.any_eq_true.mpr ⟨p, hp, by simp [hpk]⟩
    simp [List.nodup_append, hnd, hk]

/-- The `forEach` accumulation read at a category: the value already in
the accumulator plus the summed amounts of that category's transactions. -/
theorem accumulate_go_lookup (l : List Transaction)
    (m : List (String × Rat)) (c : String) :
    recLookupD
        (l.foldl (fun m t =>
          recSet m t.category (recLookupD m t.category + t.amount)) m) c
      = recLookupD m c
        + ((l.filter (fun t => t.category = c)).map (fun t => t.amount)).sum := by
  induction l generalizing m with
  | nil => simp
  | cons t l ih =>
      rw [List.foldl_cons, ih, recLookupD_recSet]
      by_cases hc : c = t.category
      · rw [if_pos hc]
        rw [List.filter_cons, if_pos (by simp [hc])]
        simp only [List.map_cons, List.sum_cons]
        rw [hc]
        ring
      · rw [if_neg hc]
        rw [List.filter_cons, if_neg (by
          simp only [decide_eq_true_eq]
          exact fun h => hc h.symm)]

/-- A category reads as present in the accumulated record exactly when it
was present in the accumulator or occurs in the remaining transactions. -/
theorem accumulate_go_keys_mem (l : List Transaction)
    (m : List (String × Rat)) (c : String) :
    c ∈ ((l.foldl (fun m t =>
          recSet m t.category (recLookupD m t.category + t.amount)) m).map
        Prod.fst)
      ↔ c ∈ m.map Prod.fst ∨ c ∈ l.map (fun t => t.category) := by
  induction l generalizing m with
  | nil => simp
  | cons t l ih =>
      rw [List.foldl_cons, ih]
      simp only [mem_keys_recSet, List.map_cons, List.mem_cons]
      constructor
      · rintro ((h | h) | h)
        · exact Or.inl h
        · exact Or.inr (Or.inl h)
        · exact Or.inr (Or.inr h)
      · rintro (h | h | h)
        · exact Or.inl (Or.inl h)
        · exact Or.inl (Or.inr h)
        · exact Or.inr h

/-- The accumulation keeps the keys unique. -/
theorem accumulate_go_keys_nodup (l : List Transaction)
    (m : List (String × Rat)) (hnd : (m.map Prod.fst).Nodup) :
    ((l.foldl (fun m t =>
        recSet m t.category (recLookupD m t.category + t.amount)) m).map
      Prod.fst).Nodup := by
  induction l generalizing m with
  | nil => exact hnd
  | cons t l ih =>
      rw [List.foldl_cons]
      exact ih _ (nodup_keys_recSet _ _ _ hnd)

/-- Reading the finished accumulation at a category gives that category's
summed amounts. -/
theorem accumulateByCategory_lookup (txs : List Transaction) (c : String) :
    recLookupD (accumulateByCategory txs) c
      = ((txs.filter (fun t => t.category = c)).map (fun t => t.amount)).sum := by
  unfold accumulateByCategory
  rw [accumulate_go_lookup]
  have h0 : recLookupD [] c = 0 := rfl
  rw [h0, zero_add]

/-- The set-based deduplication keeps the accumulator's uniqueness. -/
theorem setDedup_go_nodup (l acc : List String) (h : acc.Nodup) :
    (l.foldl (fun acc x => if x ∈ acc then acc else acc ++ [x]) acc).Nodup := by
  induction l generalizing acc with
  | nil => exact h
  | cons x l ih =>
      rw [List.foldl_cons]
      by_cases hx : x ∈ acc
      · rw [if_pos hx]; exact ih _ h
      · rw [if_neg hx]
        exact ih _ (by simp [List.nodup_append, h, hx])

/-- Membership after the set-based deduplication fold. -/
theorem mem_setDedup_go (l acc : List String) (c : String) :
    c ∈ l.foldl (fun acc x => if x ∈ acc then acc else acc ++ [x]) acc
      ↔ c ∈ acc ∨ c ∈ l := by
  induction l generalizing acc with
  | nil => simp
  | cons x l ih =>
      rw [List.foldl_cons, ih]
      by_cases hx : x ∈ acc
      · rw [if_pos hx]
        simp only [List.mem_cons]
        constructor
        · rintro (h | h)
          · exact Or.inl h
          · exact Or.inr (Or.inr h)
        · rintro (h | h | h)
          · exact Or.inl h
          · exact Or.inl (h ▸ hx)
          · exact Or.inr h
      · rw [if_neg hx]
        simp only [List.mem_append, List.mem_singleton, List.mem_cons]
        tauto

/-- `Array.from(new Set(l))` has no duplicates. -/
theorem setDedup_nodup (l : List String) : (setDedup l).Nodup :=
  setDedup_go_nodup l [] List.nodup_nil

/-- `Array.from(new Set(l))` has the same members as `l`. -/
theorem mem_setDedup (l : List String) (c : String) :
    c ∈ setDedup l ↔ c ∈ l := by
  unfold setDedup
  rw [mem_setDedup_go]
  simp

/-- The merged, deduplicated, sorted category list has no duplicates. -/
theorem allCategories_nodup (budgets : List (String × Rat))
    (txs : List Transaction) (pfx : String) :
    (allCategories budgets txs pfx).Nodup := by
  unfold allCategories
  exact ((List.mergeSort_perm _ _).nodup_iff).mpr (setDedup_nodup _)

/-- A category is in the merged list exactly when it is a budget key or a
spending key. -/
theorem mem_allCategories (budgets : List (String × Rat))
    (txs : List Transaction) (pfx : String) (c : String) :
    c ∈ allCategories budgets txs pfx ↔
      c ∈ budgets.map Prod.fst
        ∨ c ∈ (spendingByCategory txs pfx).map Prod.fst := by
  unfold allCategories
  rw [(List.mergeSort_perm _ _).mem_iff, mem_setDedup, List.mem_append]

/-- Summing `record[c] || 0` over a duplicate-free list of categories that
covers every key of the record gives the sum of the record's values. -/
theorem sum_map_recLookupD (m : List (String × Rat)) (cats : List String)
    (hndm : (m.map Prod.fst).Nodup) (hndc : cats.Nodup)
    (hsub : ∀ k ∈ m.map Prod.fst, k ∈ cats) :
    (cats.map (fun c => recLookupD m c)).sum = (m.map Prod.snd).sum := by
  induction m generalizing cats with
  | nil =>
      have h0 : ∀ c : String, recLookupD [] c = 0 := fun _ => rfl
      simp [h0]
  | cons p m ih =>
      simp only [List.map_cons, List.nodup_cons] at hndm
      obtain ⟨hp_not, hndm2⟩ := hndm
      have hpc : p.1 ∈ cats := hsub p.1 (by simp)
      have hperm : cats.Perm (p.1 :: cats.erase p.1) :=
        List.perm_cons_erase hpc
      have hsum : (cats.map (fun c => recLookupD (p :: m) c)).sum
          = ((p.1 :: cats.erase p.1).map
              (fun c => recLookupD (p :: m) c)).sum :=
        (hperm.map _).sum_eq
      rw [hsum]
      simp only [List.map_cons, List.sum_cons]
      rw [recLookupD_cons, if_pos rfl]
      have hcongr : ((cats.erase p.1).map (fun c => recLookupD (p :: m) c))
          = ((cats.erase p.1).map (fun c => recLookupD m c)) := by
        apply List.map_congr_left
        intro c hc
        have hcne : c ≠ p.1 := (hndc.mem_erase_iff.mp hc).1
        rw [recLookupD_cons, if_neg (fun h => hcne h.symm)]
      rw [hcongr, ih (cats.erase p.1) hndm2 (hndc.erase _) ?_]
      · intro k hk
        have hkne : k ≠ p.1 := fun he => hp_not (he ▸ hk)
        exact (List.mem_erase_of_ne hkne).mpr (hsub k (by simp [hk]))

/-- C3: For every list of transactions, the computed total balance equals
the sum of the amounts of the transactions whose type is INCOME minus the
sum of the amounts of the transactions whose type is EXPENSE. -/
theorem currentBalance_eq_income_sub_expense (txs : List Transaction) :
    currentBalance txs =
      ((txs.filter (fun t => t.type = TransactionType.INCOME)).map
        (fun t => t.amount)).sum
      - ((txs.filter (fun t => t.type = TransactionType.EXPENSE)).map
        (fun t => t.amount)).sum := by
  unfold currentBalance
  rw [foldl_amount_eq_sum, foldl_amount_eq_sum]
  ring

/-- C8: `deleteTransaction` removes exactly the transactions whose id
equals the given id: no surviving transaction carries the id, the result
is a sublist of the original (same relative order, unchanged fields),
every transaction whose id differs keeps its exact multiplicity, and
deleting an absent id leaves the list identical. -/
theorem deleteTransaction_removes_exactly_id (s : AppState) (id : String) :
    (∀ t ∈ (deleteTransaction s id).transactions, t.id ≠ id) ∧
    List.Sublist (deleteTransaction s id).transactions s.transactions ∧
    (∀ t : Transaction, t.id ≠ id →
      ((deleteTransaction s id).transactions.count t
        = s.transactions.count t)) ∧
    ((∀ t ∈ s.transactions, t.id ≠ id) →
      (deleteTransaction s id).transactions = s.transactions) := by
  have htx : (deleteTransaction s id).transactions
      = s.transactions.filter (fun t => t.id ≠ id) := by
    unfold deleteTransaction saveEffect
    split <;> rfl
  refine ⟨?_, ?_, ?_, ?_⟩
  · intro t ht
    rw [htx] at ht
    have := List.of_mem_filter ht
    simpa using this
  · rw [htx]; exact List.filter_sublist _
  · intro t hne
    rw [htx, List.count_filter]
    simp [hne]
  · intro hall
    rw [htx, List.filter_eq_self]
    intro t ht
    simpa using hall t ht

/-- Witness for C8 at a concrete state: deleting an id that is not present
leaves the demo list identical. -/
theorem deleteTransaction_removes_exactly_id_witness :
    (deleteTransaction
        { userId := "u1"
          transactions :=
            [{ id := "1", date := "2023-10-01", merchant := "TechCorp Salary",
               amount := 4500, category := "Income",
               type := TransactionType.INCOME }]
          storage := fun _ => none } "9").transactions
      = [{ id := "1", date := "2023-10-01", merchant := "TechCorp Salary",
           amount := 4500, category := "Income",
           type := TransactionType.INCOME }] :=
  (deleteTransaction_removes_exactly_id _ "9").2.2.2 (by decide)

/-- C1 counterexample: deleting the only transaction of a logged-in user
empties the in-memory list, but the save effect is guarded by
`transactions.length > 0`, so the stored copy under
`elag_transactions_<userId>` keeps the old one-element list and no longer
equals the in-memory list. -/
theorem stored_ne_memory_after_delete_last :
    (deleteTransaction singleTxState "1").storage (txKey "u1")
      ≠ some (deleteTransaction singleTxState "1").transactions := by
  decide

/-- C1 amended: after an add the stored copy under
`elag_transactions_<userId>` always equals the updated in-memory list;
after a delete it equals the updated list whenever that list is non-empty,
while a delete that empties the list leaves the whole storage unchanged
(so the stored copy can go stale). -/
theorem storage_sync_after_ops (s : AppState) (t : Transaction) (id : String) :
    ((addTransaction s t).storage (txKey s.userId)
        = some (addTransaction s t).transactions) ∧
    ((deleteTransaction s id).transactions ≠ [] →
      (deleteTransaction s id).storage (txKey s.userId)
        = some (deleteTransaction s id).transactions) ∧
    ((deleteTransaction s id).transactions = [] →
      (deleteTransaction s id).storage = s.storage) := by
  refine ⟨?_, ?_, ?_⟩
  · have hlen : ({ s with transactions := s.transactions ++ [t] } :
        AppState).transactions.length > 0 := by simp
    unfold addTransaction saveEffect
    rw [if_pos hlen]
    simp
  · intro hne
    unfold deleteTransaction saveEffect at hne ⊢
    by_cases h : ({ s with
        transactions := s.transactions.filter (fun t => t.id ≠ id) } :
          AppState).transactions.length > 0
    · rw [if_pos h] at hne ⊢
      simp
    · rw [if_neg h] at hne
      exfalso
      apply hne
      have hz : (s.transactions.filter (fun t => t.id ≠ id)).length = 0 :=
        Nat.eq_zero_of_not_pos h
      exact List.length_eq_zero.mp hz
  · intro hemp
    unfold deleteTransaction saveEffect at hemp ⊢
    by_cases h : ({ s with
        transactions := s.transactions.filter (fun t => t.id ≠ id) } :
          AppState).transactions.length > 0
    · rw [if_pos h] at hemp
      exfalso
      have hz : (s.transactions.filter (fun t => t.id ≠ id)) = [] := hemp
      have : (s.transactions.filter (fun t => t.id ≠ id)).length > 0 := h
      rw [hz] at this
      simp at this
    · rw [if_neg h]

/-- Witness for the C1 amended theorem at a concrete state: adding a
transaction writes the updated list to storage, and deleting the only
transaction leaves storage untouched. -/
theorem storage_sync_after_ops_witness :
    ((addTransaction singleTxState
        { id := "2", date := "2023-10-02", merchant := "Starbucks",
          amount := (25 : Rat) / 2, category := "Food",
          type := TransactionType.EXPENSE }).storage (txKey "u1")
      = some (addTransaction singleTxState
        { id := "2", date := "2023-10-02", merchant := "Starbucks",
          amount := (25 : Rat) / 2, category := "Food",
          type := TransactionType.EXPENSE }).transactions)
    ∧ ((deleteTransaction singleTxState "1").storage = singleTxState.storage) := by
  constructor
  · exact (storage_sync_after_ops singleTxState _ "1").1
  · exact (storage_sync_after_ops singleTxState
      { id := "2", date := "2023-10-02", merchant := "Starbucks",
        amount := (25 : Rat) / 2, category := "Food",
        type := TransactionType.EXPENSE } "1").2.2 (by decide)

/-- C6: In login mode, access is granted if and only if the stored user
list contains a user whose email and password both equal the entered
values; on success the session written to local storage and passed to
`onLogin` is a matching user's id, name and email with no error; on
failure the error is set to the fixed message and no session is written. -/
theorem loginSubmit_grants_access_iff (users : List StoredUser)
    (email password : String) :
    ((loginSubmit users email password).session.isSome ↔
      ∃ u ∈ users, u.email = email ∧ u.password = password) ∧
    (∀ sess, (loginSubmit users email password).session = some sess →
      ∃ u ∈ users, u.email = email ∧ u.password = password ∧
        sess = { id := u.id, name := u.name, email := u.email }) ∧
    ((loginSubmit users email password).session = none →
      (loginSubmit users email password).error
        = some "Invalid email or password.") ∧
    ((loginSubmit users email password).session.isSome →
      (loginSubmit users email password).error = none) ∧
    (loginSubmit users email password).users = users := by
  unfold loginSubmit
  rcases hfind : users.find? (fun u => u.email = email ∧ u.password = password)
    with _ | u
  · simp only [hfind]
    have hnone := List.find?_eq_none.mp hfind
    refine ⟨?_, ?_, ?_, ?_, trivial⟩
    · simp only [Option.isSome_none, Bool.false_eq_true, false_iff]
      rintro ⟨u, hu, he, hp⟩
      have := hnone u hu
      simp [he, hp] at this
    · intro sess hsess; exact absurd hsess (by simp)
    · intro _; trivial
    · intro h; exact absurd h (by simp)
  · simp only [hfind]
    have hmem : u ∈ users := List.mem_of_find?_eq_some hfind
    have hp : u.email = email ∧ u.password = password := by
      have := List.find?_some hfind
      simpa using this
    refine ⟨?_, ?_, ?_, ?_, trivial⟩
    · simp only [Option.isSome_some, true_iff]
      exact ⟨u, hmem, hp⟩
    · intro sess hsess
      refine ⟨u, hmem, hp.1, hp.2, ?_⟩
      simpa using hsess.symm
    · intro hnone; exact absurd hnone (by simp)
    · intro _; trivial

/-- Witness for C6 at concrete inputs: against a one-user stored list the
right credentials produce that user's session, and on the empty list the
fixed error message is set. -/
theorem loginSubmit_grants_access_iff_witness :
    ((loginSubmit
        [{ id := "u1", name := "Ada", email := "a@x.com", password := "pw" }]
        "a@x.com" "pw").session.isSome)
    ∧ ((loginSubmit [] "a@x.com" "pw").error
        = some "Invalid email or password.") := by
  constructor
  · exact (loginSubmit_grants_access_iff
      [{ id := "u1", name := "Ada", email := "a@x.com", password := "pw" }]
      "a@x.com" "pw").1.mpr
      ⟨{ id := "u1", name := "Ada", email := "a@x.com", password := "pw" },
        by decide, rfl, rfl⟩
  · exact (loginSubmit_grants_access_iff [] "a@x.com" "pw").2.2.1 (by decide)

/-- C9: In signup mode with all three fields non-empty, a duplicate email
sets the fixed error and leaves the stored users and session untouched;
otherwise exactly one new user is appended and a session for that user is
written with no error. -/
theorem signupSubmit_appends_or_rejects (users : List StoredUser)
    (newId name email password : String)
    (hn : name ≠ "") (he : email ≠ "") (hp : password ≠ "") :
    ((∃ u ∈ users, u.email = email) →
      signupSubmit users newId name email password =
        { users := users, session := none,
          error := some "Email already exists. Please login." }) ∧
    ((∀ u ∈ users, u.email ≠ email) →
      signupSubmit users newId name email password =
        { users := users ++
            [{ id := newId, name := name, email := email,
               password := password }]
          session := some { id := newId, name := name, email := email }
          error := none }) := by
  unfold signupSubmit
  rw [if_neg (by simp [hn, he, hp])]
  constructor
  · rintro ⟨u, hu, hue⟩
    rw [if_pos]
    rw [List.find?_isSome]
    exact ⟨u, hu, by simp [hue]⟩
  · intro hall
    rw [if_neg]
    rw [List.find?_isSome]
    rintro ⟨u, hu, hue⟩
    exact hall u hu (by simpa using hue)

/-- Witness for C9 at concrete inputs: signing up a fresh email against a
one-user stored list appends exactly that new user and writes their
session. -/
theorem signupSubmit_appends_or_rejects_witness :
    signupSubmit
        [{ id := "u1", name := "Ada", email := "a@x.com", password := "pw" }]
        "u2" "Bob" "b@x.com" "pw2" =
      { users :=
          [{ id := "u1", name := "Ada", email := "a@x.com", password := "pw" },
           { id := "u2", name := "Bob", email := "b@x.com", password := "pw2" }]
        session := some { id := "u2", name := "Bob", email := "b@x.com" }
        error := none } :=
  (signupSubmit_appends_or_rejects
      [{ id := "u1", name := "Ada", email := "a@x.com", password := "pw" }]
      "u2" "Bob" "b@x.com" "pw2"
      (by decide) (by decide) (by decide)).2 (by decide)

/-- C2 counterexample: when its single request fails, `parseReceiptImage`
does not return a fallback value — its `catch` block re-throws, so the
failure propagates to the caller as an error. -/
theorem parseReceiptImage_error_propagates :
    parseReceiptImage (Except.error ()) = Except.error () := rfl

/-- C2 amended: every AI-service operation is a function of the outcome of
its single model request (no retry, caching or batching); on any failure
the six analysis operations return their single fixed fallback value
(`analyzeFinancialHealth` the fixed metric object, `getCoachResponse` the
fixed apology string, `generateBudgetPlan` the fixed one-entry budget, and
the three list operations the empty list), while `parseReceiptImage`
re-raises the failure to its caller instead of returning a fallback; on
success each operation passes the decoded payload through unchanged. -/
theorem service_ops_single_request_fallback :
    (∀ d, parseReceiptImage (Except.ok d) = Except.ok d) ∧
    (∀ e, parseReceiptImage (Except.error e) = Except.error e) ∧
    (∀ m, analyzeFinancialHealth (Except.ok m) = m) ∧
    (∀ e, analyzeFinancialHealth (Except.error e) = healthFallback) ∧
    (∀ t, getCoachResponse (Except.ok t) = t) ∧
    (∀ e, getCoachResponse (Except.error e) = some coachFallback) ∧
    (∀ b, generateBudgetPlan (Except.ok b) = b) ∧
    (∀ e, generateBudgetPlan (Except.error e) = [("General", 1000)]) ∧
    (∀ l, generateSmartInsights (Except.ok l) = l) ∧
    (∀ e, generateSmartInsights (Except.error e) = []) ∧
    (∀ l, detectAnomalies (Except.ok l) = l) ∧
    (∀ e, detectAnomalies (Except.error e) = []) ∧
    (∀ l, predictCashFlow (Except.ok l) = l) ∧
    (∀ e, predictCashFlow (Except.error e) = []) :=
  ⟨fun _ => rfl, fun _ => rfl, fun _ => rfl, fun _ => rfl, fun _ => rfl,
   fun _ => rfl, fun _ => rfl, fun _ => rfl, fun _ => rfl, fun _ => rfl,
   fun _ => rfl, fun _ => rfl, fun _ => rfl, fun _ => rfl⟩

/-- C7 counterexample: a parsed receipt whose merchant field is present
but the empty string is not kept — JS `||` also replaces falsy values, so
the added transaction's merchant is the default, not the parsed value. -/
theorem scanned_empty_merchant_not_kept :
    (handleFileUpload
        (Except.ok { merchant := some "", date := some "2024-01-02",
                     amount := some 5, category := some "Food",
                     description := none }) "id1" "2024-01-01").added.map
        (fun t => t.merchant) = ["Unknown Merchant"]
    ∧ (handleFileUpload
        (Except.ok { merchant := some "", date := some "2024-01-02",
                     amount := some 5, category := some "Food",
                     description := none }) "id1" "2024-01-01").added.map
        (fun t => t.merchant) ≠ [""] := by
  constructor
  · rfl
  · decide

/-- C7 amended: a successful parse adds exactly one transaction of type
EXPENSE whose fields come from the parsed result, with each missing or
JS-falsy field (absent, empty string, or zero amount) replaced by its
default (today's date, merchant Unknown Merchant, amount 0, category
Uncategorized); a failed parse adds no transaction and sets the fixed
error message. -/
theorem handleFileUpload_adds_one_or_errors (d : ParsedReceipt)
    (newId today : String) :
    ((handleFileUpload (Except.ok d) newId today).added.length = 1) ∧
    ((handleFileUpload (Except.ok d) newId today).error = none) ∧
    (∀ t ∈ (handleFileUpload (Except.ok d) newId today).added,
      t.id = newId ∧ t.type = TransactionType.EXPENSE ∧
      (∀ s, d.merchant = some s → s ≠ "" → t.merchant = s) ∧
      ((d.merchant = none ∨ d.merchant = some "") →
        t.merchant = "Unknown Merchant") ∧
      (∀ s, d.date = some s → s ≠ "" → t.date = s) ∧
      ((d.date = none ∨ d.date = some "") → t.date = today) ∧
      (∀ x, d.amount = some x → t.amount = x) ∧
      (d.amount = none → t.amount = 0) ∧
      (∀ s, d.category = some s → s ≠ "" → t.category = s) ∧
      ((d.category = none ∨ d.category = some "") →
        t.category = "Uncategorized") ∧
      t.description = d.description) ∧
    ((handleFileUpload (Except.error ()) newId today).added = []) ∧
    ((handleFileUpload (Except.error ()) newId today).error =
      some "Failed to analyze receipt. Please try again or enter manually.") := by
  refine ⟨rfl, rfl, ?_, rfl, rfl⟩
  intro t ht
  simp only [handleFileUpload, List.mem_singleton] at ht
  subst ht
  refine ⟨rfl, rfl, ?_, ?_, ?_, ?_, ?_, ?_, ?_, ?_, rfl⟩
  · intro s hs hne; simp [jsOrStr, hs, hne]
  · rintro (h | h) <;> simp [jsOrStr, h]
  · intro s hs hne; simp [jsOrStr, hs, hne]
  · rintro (h | h) <;> simp [jsOrStr, h]
  · intro x hx
    by_cases hx0 : x = 0 <;> simp [jsOrRat, hx, hx0]
  · intro h; simp [jsOrRat, h]
  · intro s hs hne; simp [jsOrStr, hs, hne]
  · rintro (h | h) <;> simp [jsOrStr, h]

/-- Witness for the C7 amended theorem at a concrete parsed receipt: the
non-empty merchant is kept, the absent date becomes today, the empty
category becomes Uncategorized, and the amount is kept. -/
theorem handleFileUpload_adds_one_or_errors_witness :
    ((handleFileUpload
        (Except.ok { merchant := some "Store", date := none,
                     amount := some 7, category := some "",
                     description := none }) "id1" "2024-01-01").added.length
      = 1) ∧
    (∀ t ∈ (handleFileUpload
        (Except.ok { merchant := some "Store", date := none,
                     amount := some 7, category := some "",
                     description := none }) "id1" "2024-01-01").added,
      t.merchant = "Store" ∧ t.date = "2024-01-01" ∧
      t.category = "Uncategorized" ∧ t.amount = 7) := by
  have h := handleFileUpload_adds_one_or_errors
    { merchant := some "Store", date := none, amount := some 7,
      category := some "", description := none } "id1" "2024-01-01"
  refine ⟨h.1, ?_⟩
  intro t ht
  obtain ⟨-, -, hm, -, -, hdn, ha, -, -, hcn, -⟩ := h.2.2.1 t ht
  exact ⟨hm "Store" rfl (by decide), hdn (Or.inl rfl),
    hcn (Or.inr rfl), ha 7 rfl⟩

/-- C5: the spending-breakdown data has exactly one entry per distinct
category occurring among the EXPENSE transactions (unique names whose set
is exactly the expense categories), each entry's value is the sum of the
amounts of the EXPENSE transactions in that category, and INCOME
transactions contribute to no entry (the breakdown is computed from the
expense sublist alone). -/
theorem categoryData_one_entry_per_category (txs : List Transaction) :
    (((categoryData txs).map Prod.fst).Nodup) ∧
    (∀ c, c ∈ (categoryData txs).map Prod.fst ↔
      c ∈ (txs.filter (fun t => t.type = TransactionType.EXPENSE)).map
        (fun t => t.category)) ∧
    (∀ p ∈ categoryData txs,
      p.2 = (((txs.filter (fun t => t.type = TransactionType.EXPENSE)).filter
          (fun t => t.category = p.1)).map (fun t => t.amount)).sum) := by
  refine ⟨?_, ?_, ?_⟩
  · exact accumulate_go_keys_nodup _ [] List.nodup_nil
  · intro c
    unfold categoryData accumulateByCategory
    rw [accumulate_go_keys_mem]
    simp
  · intro p hp
    have hnd : (((categoryData txs).map Prod.fst)).Nodup :=
      accumulate_go_keys_nodup _ [] List.nodup_nil
    have hval := recLookupD_eq_of_mem _ hnd p hp
    rw [← hval]
    exact accumulateByCategory_lookup _ p.1

/-- Witness for C5 at the demo list: the Food breakdown entry's value is
the summed Food expenses. -/
theorem categoryData_one_entry_per_category_witness :
    ("Food", (30 : Rat)).2
      = (((demoTxs.filter (fun t => t.type = TransactionType.EXPENSE)).filter
          (fun t => t.category = ("Food", (30 : Rat)).1)).map
        (fun t => t.amount)).sum :=
  (categoryData_one_entry_per_category demoTxs).2.2 ("Food", (30 : Rat))
    (by simp [categoryData, accumulateByCategory, recSet, recLookupD, demoTxs])

/-- C4: for every selected month prefix and transaction list (and any
budgets record with unique keys), a transaction contributes to the monthly
spending iff its type is EXPENSE and its date starts with the `YYYY-MM`
prefix; every contributing transaction's category gets a stats row; each
row's spent value is the sum of the amounts of that category's monthly
expenses; and totalBudget, totalSpent, totalRemaining are the sum of all
category budgets, the sum of all spent values, and their difference. -/
theorem budgetStats_spec (txs : List Transaction)
    (budgets : List (String × Rat)) (pfx : String)
    (hnd : (budgets.map Prod.fst).Nodup) :
    (∀ t ∈ txs, (t ∈ monthlyExpenses txs pfx ↔
      t.type = TransactionType.EXPENSE ∧ strStartsWith t.date pfx = true)) ∧
    (∀ s ∈ (computeStats txs budgets pfx).categoryStats,
      s.spent = (((monthlyExpenses txs pfx).filter
        (fun t => t.category = s.category)).map (fun t => t.amount)).sum) ∧
    (∀ t ∈ monthlyExpenses txs pfx,
      t.category ∈ (computeStats txs budgets pfx).categoryStats.map
        (fun s => s.category)) ∧
    ((computeStats txs budgets pfx).totalBudget
      = (budgets.map Prod.snd).sum) ∧
    ((computeStats txs budgets pfx).totalSpent
      = ((computeStats txs budgets pfx).categoryStats.map
          (fun s => s.spent)).sum) ∧
    ((computeStats txs budgets pfx).totalRemaining
      = (computeStats txs budgets pfx).totalBudget
        - (computeStats txs budgets pfx).totalSpent) := by
  have hrows : (computeStats txs budgets pfx).categoryStats
      = categoryStatsOf txs budgets pfx := rfl
  have hrowcats : (categoryStatsOf txs budgets pfx).map (fun s => s.category)
      = allCategories budgets txs pfx := by
    unfold categoryStatsOf
    rw [List.map_map]
    exact List.map_id _ ▸ List.map_congr_left (fun c _ => rfl)
  refine ⟨?_, ?_, ?_, ?_, ?_, rfl⟩
  · intro t ht
    unfold monthlyExpenses
    rw [List.mem_filter]
    simp [ht]
  · intro s hs
    rw [hrows] at hs
    unfold categoryStatsOf at hs
    rcases List.mem_map.mp hs with ⟨cat, hcat, heq⟩
    have h1 : s.category = cat := by rw [← heq]
    have h2 : s.spent = recLookupD (spendingByCategory txs pfx) cat := by
      rw [← heq]
    rw [h2, h1]
    unfold spendingByCategory
    exact accumulateByCategory_lookup _ _
  · intro t ht
    rw [hrows, hrowcats, mem_allCategories]
    right
    unfold spendingByCategory accumulateByCategory
    rw [accumulate_go_keys_mem]
    right
    exact List.mem_map.mpr ⟨t, ht, rfl⟩
  · have hfold : (computeStats txs budgets pfx).totalBudget
        = 0 + ((categoryStatsOf txs budgets pfx).map
            (fun s => s.budget)).sum :=
      foldl_add_eq_sum (fun s : CategoryStat => s.budget) (categoryStatsOf txs budgets pfx) 0
    rw [hfold, zero_add]
    have hb : (categoryStatsOf txs budgets pfx).map (fun s => s.budget)
        = (allCategories budgets txs pfx).map
            (fun c => recLookupD budgets c) := by
      unfold categoryStatsOf
      rw [List.map_map]
      exact List.map_congr_left (fun c _ => rfl)
    rw [hb]
    exact sum_map_recLookupD budgets _ hnd (allCategories_nodup _ _ _)
      (fun k hk => (mem_allCategories _ _ _ _).mpr (Or.inl hk))
  · have hfold : (computeStats txs budgets pfx).totalSpent
        = 0 + ((categoryStatsOf txs budgets pfx).map
            (fun s => s.spent)).sum :=
      foldl_add_eq_sum (fun s : CategoryStat => s.spent) (categoryStatsOf txs budgets pfx) 0
    rw [hfold, zero_add, hrows]

/-- Witness for C4 at a concrete month: with the demo transactions and the
one-entry Food budget, the statement's total budget is the sum of the
budget record's values. -/
theorem budgetStats_spec_witness :
    (computeStats demoTxs demoBudgets "2023-10").totalBudget
      = (demoBudgets.map Prod.snd).sum :=
  (budgetStats_spec demoTxs demoBudgets "2023-10" (by decide)).2.2.2.1

/-- C10: every category stat row's utilization percentage is totally
defined with no division by zero: when the row's budget is positive the
percentage is spent over budget times 100, and when the budget is 0 it is
100 for positive spending and 0 otherwise. -/
theorem categoryStat_percentage_cases (txs : List Transaction)
    (budgets : List (String × Rat)) (pfx : String) :
    ∀ s ∈ (computeStats txs budgets pfx).categoryStats,
      (s.budget > 0 → s.percentage = s.spent / s.budget * 100) ∧
      (s.budget = 0 →
        (s.spent > 0 → s.percentage = 100) ∧
        (¬ s.spent > 0 → s.percentage = 0)) := by
  intro s hs
  have hs2 : s ∈ categoryStatsOf txs budgets pfx := hs
  unfold categoryStatsOf at hs2
  rcases List.mem_map.mp hs2 with ⟨cat, hcat, heq⟩
  have hpct : s.percentage =
      if s.budget > 0 then s.spent / s.budget * 100
      else if s.spent > 0 then 100 else 0 := by
    rw [← heq]
  constructor
  · intro hb
    rw [hpct, if_pos hb]
  · intro hb0
    have hnb : ¬ s.budget > 0 := by
      rw [hb0]
      exact lt_irrefl 0
    constructor
    · intro hsp
      rw [hpct, if_neg hnb, if_pos hsp]
    · intro hsp
      rw [hpct, if_neg hnb, if_neg hsp]

/-- Witness for C10 at a concrete month: the demo statement's single row
has a positive budget, so its percentage is spent over budget times 100. -/
theorem categoryStat_percentage_cases_witness :
    ((computeStats demoTxs demoBudgets "2023-10").categoryStats.map
        (fun s => s.percentage))
      = ((computeStats demoTxs demoBudgets "2023-10").categoryStats.map
        (fun s => s.spent / s.budget * 100)) := by
  apply List.map_congr_left
  intro s hs
  refine (categoryStat_percentage_cases demoTxs demoBudgets "2023-10" s hs).1 ?_
  have hs2 : s ∈ categoryStatsOf demoTxs demoBudgets "2023-10" := hs
  have hcats : allCategories demoBudgets demoTxs "2023-10" = ["Food"] := by
    simp [allCategories, setDedup, spendingByCategory, monthlyExpenses,
      accumulateByCategory, recSet, recLookupD, demoTxs, demoBudgets,
      strStartsWith, List.isPrefixOf, List.mergeSort_singleton]
  unfold categoryStatsOf at hs2
  rw [hcats] at hs2
  simp only [List.map_cons, List.map_nil, List.mem_singleton] at hs2
  subst hs2
  show recLookupD demoBudgets "Food" > 0
  have h100 : recLookupD demoBudgets "Food" = 100 := rfl
  rw [h100]
  norm_num

end FinancialAI
